import Mathlib

/-!
Shallow embedding of `src/julian.rs` from the hifitime repository: the
`ModifiedJulian` time system and its conversions to and from `Instant`.
Floating-point (`f64`) values and arithmetic are modelled exactly over ℚ;
`f64::round` is modelled as round-half-away-from-zero and the Rust `as u64` /
`as u32` float-to-integer conversions as saturating casts.
-/

/-- Modelled from the spec: the `Era` enumeration (external, from
`instant.rs`, which is not under `src/`): a tag distinguishing whether an
Instant is at/after (`Present`) or before (`Past`) the reference epoch. -/
inductive Era where
  | Past : Era
  | Present : Era
deriving DecidableEq, Repr

/-- Modelled from the spec: the `Instant` type (external, from `instant.rs`,
which is not under `src/`): an era tag, a non-negative integer seconds offset
from the reference epoch magnitude, and a non-negative integer nanoseconds
offset (0 ≤ nanos < 10^9). The accessors `secs`, `nanos`, `era` of the source
are the projections. -/
structure Instant where
  secs : Nat
  nanos : Nat
  era : Era
deriving DecidableEq, Repr

/-- Modelled from the spec: `Instant::new(seconds, nanos, era)` (external,
from `instant.rs`, which is not under `src/`) constructs the Instant with
those three observable facets. -/
def Instant.new (seconds : Nat) (nanos : Nat) (era : Era) : Instant :=
  ⟨seconds, nanos, era⟩

/-- `J1900_OFFSET` from `src/julian.rs`: offset in julian days between
01 Jan 1900 at midnight and the Modified Julian Day at 17 November 1858. -/
def J1900_OFFSET : ℚ := 15020

/-- `DAYS_PER_YEAR` from `src/julian.rs`. -/
def DAYS_PER_YEAR : ℚ := 365.25

/-- `SECONDS_PER_DAY` from `src/julian.rs`. -/
def SECONDS_PER_DAY : ℚ := 86400

/-- `ModifiedJulian` from `src/julian.rs`: a single field `days`. -/
structure ModifiedJulian where
  days : ℚ
deriving DecidableEq, Repr

/-- `ModifiedJulian::julian_days` from `src/julian.rs`:
`self.days + 2_400_000.5`. -/
def ModifiedJulian.julian_days (self : ModifiedJulian) : ℚ :=
  self.days + 2400000.5

/-- Rust `f64::round`: round to the nearest integer, halfway cases away from
zero. -/
def fround (q : ℚ) : ℤ :=
  if 0 ≤ q then ⌊q + 1/2⌋ else -⌊-q + 1/2⌋

/-- Rust `as u64` on an `f64` value (already rounded to an integer, modelled
as ℤ): saturating cast into [0, 2^64). -/
def castU64 (z : ℤ) : Nat :=
  if z < 0 then 0 else min z.toNat (2 ^ 64 - 1)

/-- Rust `as u32` on an `f64` value (already rounded to an integer, modelled
as ℤ): saturating cast into [0, 2^32). -/
def castU32 (z : ℤ) : Nat :=
  if z < 0 then 0 else min z.toNat (2 ^ 32 - 1)

/-- The `modifier` selected in `from_instant` (`src/julian.rs` lines 53-58):
`1.0` when the era of the instant is `Present`, `-1.0` otherwise. -/
def fromInstantModifier (i : Instant) : ℚ :=
  if i.era = Era.Present then 1 else -1

/-- `from_instant` from `src/julian.rs` (lines 52-63):
`days = J1900_OFFSET + modifier * (secs as f64) / SECONDS_PER_DAY +
(nanos as f64) * 1e-9`. -/
def from_instant (instant : Instant) : ModifiedJulian :=
  { days := J1900_OFFSET + fromInstantModifier instant * (instant.secs : ℚ) / SECONDS_PER_DAY
      + (instant.nanos : ℚ) * (1 / 1000000000) }

/-- The `era` selected in `as_instant` (`src/julian.rs` lines 67-75):
`Present` when `self.days >= J1900_OFFSET`, `Past` otherwise. -/
def asInstantEra (days : ℚ) : Era :=
  if J1900_OFFSET ≤ days then Era.Present else Era.Past

/-- The `modifier` selected in `as_instant` (`src/julian.rs` lines 67-75):
`1.0` when `self.days >= J1900_OFFSET`, `-1.0` otherwise. -/
def asInstantModifier (days : ℚ) : ℚ :=
  if J1900_OFFSET ≤ days then 1 else -1

/-- `secs_frac` from `src/julian.rs` line 76:
`(self.days - J1900_OFFSET) * SECONDS_PER_DAY * modifier`. -/
def secsFrac (days : ℚ) : ℚ :=
  (days - J1900_OFFSET) * SECONDS_PER_DAY * asInstantModifier days

/-- `nanos` from `src/julian.rs` line 78 (before its final rounding):
`(secs_frac - seconds) * 1e9 / (SECONDS_PER_DAY * modifier)` where
`seconds = secs_frac.round()`. -/
def nanosVal (days : ℚ) : ℚ :=
  (secsFrac days - (fround (secsFrac days) : ℚ)) * 1000000000
    / (SECONDS_PER_DAY * asInstantModifier days)

/-- `as_instant` from `src/julian.rs` (lines 66-80):
`Instant::new(seconds as u64, nanos.round() as u32, era)`. -/
def as_instant (self : ModifiedJulian) : Instant :=
  Instant.new (castU64 (fround (secsFrac self.days))) (castU32 (fround (nanosVal self.days)))
    (asInstantEra self.days)

/-- The formula the spec gives for `from_instant` (§4.1):
`days = J1900_OFFSET + modifier * seconds / SECONDS_PER_DAY + nanos * 1e-9`,
with `modifier = +1.0` for era Present and `-1.0` for Past, and the
nanosecond term added without the era-sign modifier. -/
def specFromInstantDays (i : Instant) : ℚ :=
  J1900_OFFSET + (if i.era = Era.Present then (1 : ℚ) else -1) * (i.secs : ℚ) / SECONDS_PER_DAY
    + (i.nanos : ℚ) * (1 / 1000000000)

/-- Modelled from the spec (§3): the signed offset in seconds from the
reference epoch that an Instant denotes: `+seconds.nanos` if the era is
Present, `-seconds.nanos` if the era is Past. -/
def signedOffset (i : Instant) : ℚ :=
  (if i.era = Era.Present then (1 : ℚ) else -1) * ((i.secs : ℚ) + (i.nanos : ℚ) / 1000000000)

/-- Modelled from the spec (§8, monotonicity): `x < y` for Instants means
same era with smaller signed offset from the epoch, or `x` in era Past and
`y` in era Present. -/
def earlier (x y : Instant) : Prop :=
  (x.era = y.era ∧ signedOffset x < signedOffset y) ∨
    (x.era = Era.Past ∧ y.era = Era.Present)

instance (x y : Instant) : Decidable (earlier x y) := by
  unfold earlier; infer_instance

lemma secsFrac_nonneg (d : ℚ) : 0 ≤ secsFrac d := by
  unfold secsFrac asInstantModifier J1900_OFFSET SECONDS_PER_DAY
  split
  · rename_i h
    nlinarith
  · rename_i h
    push_neg at h
    nlinarith

lemma fround_nonneg {q : ℚ} (h : 0 ≤ q) : 0 ≤ fround q := by
  unfold fround
  rw [if_pos h]
  exact Int.floor_nonneg.2 (by linarith)

lemma fround_natCast_add {s : ℕ} {f : ℚ} (h0 : 0 ≤ f) (h1 : f < 1/2) :
    fround ((s : ℚ) + f) = (s : ℤ) := by
  unfold fround
  rw [if_pos (by positivity)]
  have he : (s : ℚ) + f + 1/2 = ((s : ℤ) : ℚ) + (f + 1/2) := by push_cast; ring
  rw [he, Int.floor_int_add,
    Int.floor_eq_zero_iff.2 (Set.mem_Ico.2 ⟨by linarith, by linarith⟩), add_zero]

lemma fround_natCast_sub {s : ℕ} (hs : 1 ≤ s) {f : ℚ} (h0 : 0 ≤ f) (h1 : f < 1/2) :
    fround ((s : ℚ) - f) = (s : ℤ) := by
  unfold fround
  have hs1 : (1 : ℚ) ≤ (s : ℚ) := by exact_mod_cast hs
  rw [if_pos (by linarith)]
  have he : (s : ℚ) - f + 1/2 = ((s : ℤ) : ℚ) + (1/2 - f) := by push_cast; ring
  rw [he, Int.floor_int_add,
    Int.floor_eq_zero_iff.2 (Set.mem_Ico.2 ⟨by linarith, by linarith⟩), add_zero]

lemma fround_natCast (n : ℕ) : fround (n : ℚ) = (n : ℤ) := by
  have h := fround_natCast_add (s := n) (f := 0) le_rfl (by norm_num)
  simpa using h

lemma castU64_natCast {n : ℕ} (h : n < 2 ^ 64) : castU64 (n : ℤ) = n := by
  unfold castU64
  rw [if_neg (not_lt.2 (Int.natCast_nonneg n)), Int.toNat_natCast]
  exact min_eq_left (Nat.le_pred_of_lt h)

lemma castU32_natCast {n : ℕ} (h : n < 2 ^ 32) : castU32 (n : ℤ) = n := by
  unfold castU32
  rw [if_neg (not_lt.2 (Int.natCast_nonneg n)), Int.toNat_natCast]
  exact min_eq_left (Nat.le_pred_of_lt h)

lemma castU32_lt (z : ℤ) : castU32 z < 2 ^ 32 := by
  unfold castU32
  split
  · positivity
  · have h := min_le_right z.toNat (2 ^ 32 - 1)
    omega

/-- C3: for every Instant, `from_instant` returns a ModifiedJulian whose
`days` field equals `J1900_OFFSET + modifier * seconds / SECONDS_PER_DAY +
nanos * 1e-9`, where `modifier` is `+1.0` for era Present and `-1.0` for era
Past, and the nanosecond term is added without the era-sign modifier. -/
theorem from_instant_days_formula (i : Instant) :
    (from_instant i).days = specFromInstantDays i := rfl

/-- C4: `as_instant` selects era Present with modifier `+1.0` when
`days ≥ J1900_OFFSET` and era Past with modifier `-1.0` otherwise, and the
intermediate value `secs_frac` is always non-negative. -/
theorem as_instant_era_selection (d : ℚ) :
    (J1900_OFFSET ≤ d → asInstantEra d = Era.Present ∧ asInstantModifier d = 1) ∧
      (¬ J1900_OFFSET ≤ d → asInstantEra d = Era.Past ∧ asInstantModifier d = -1) ∧
      0 ≤ secsFrac d := by
  refine ⟨fun h => ?_, fun h => ?_, secsFrac_nonneg d⟩
  · unfold asInstantEra asInstantModifier
    rw [if_pos h, if_pos h]
    exact ⟨rfl, rfl⟩
  · unfold asInstantEra asInstantModifier
    rw [if_neg h, if_neg h]
    exact ⟨rfl, rfl⟩

/-- C4 witness: at `days = 15021` the hypothesis `J1900_OFFSET ≤ 15021` holds
and `as_instant` selects era Present with modifier `1`. -/
theorem as_instant_era_selection_witness :
    asInstantEra 15021 = Era.Present ∧ asInstantModifier 15021 = 1 :=
  (as_instant_era_selection 15021).1 (by unfold J1900_OFFSET; norm_num)

/-- C5: from the Instant at the reference epoch (era Present, seconds 0,
nanos 0), `from_instant` returns a ModifiedJulian whose `days` field equals
exactly `15020.0`. -/
theorem epoch_fixed_point :
    (from_instant (Instant.new 0 0 Era.Present)).days = 15020 := by
  unfold from_instant fromInstantModifier Instant.new J1900_OFFSET SECONDS_PER_DAY
  norm_num

/-- C6: for every ModifiedJulian value, `julian_days` returns
`days + 2_400_000.5`; in particular for `days = 15020.0` it returns exactly
`2_415_020.5`. -/
theorem julian_days_formula :
    (∀ m : ModifiedJulian, m.julian_days = m.days + 2400000.5) ∧
      (ModifiedJulian.mk 15020).julian_days = 2415020.5 := by
  refine ⟨fun m => rfl, ?_⟩
  unfold ModifiedJulian.julian_days
  norm_num

/-- C8: `as_instant` applied to the ModifiedJulian with `days` exactly
`15020.0` returns the Instant with era Present, seconds 0 and nanos 0. -/
theorem era_boundary_epoch :
    as_instant (ModifiedJulian.mk 15020) = Instant.new 0 0 Era.Present := by
  have hge : J1900_OFFSET ≤ (ModifiedJulian.mk 15020).days := by
    unfold J1900_OFFSET; norm_num
  have hsf : secsFrac (ModifiedJulian.mk 15020).days = 0 := by
    unfold secsFrac asInstantModifier
    rw [if_pos hge]
    unfold J1900_OFFSET
    norm_num
  have hfr : fround (secsFrac (ModifiedJulian.mk 15020).days) = 0 := by
    rw [hsf]
    have h := fround_natCast 0
    simpa using h
  have hnv : nanosVal (ModifiedJulian.mk 15020).days = 0 := by
    unfold nanosVal
    rw [hfr, hsf]
    norm_num
  have hnr : fround (nanosVal (ModifiedJulian.mk 15020).days) = 0 := by
    rw [hnv]
    have h := fround_natCast 0
    simpa using h
  have hera : asInstantEra (ModifiedJulian.mk 15020).days = Era.Present := by
    unfold asInstantEra
    rw [if_pos hge]
  unfold as_instant
  rw [hfr, hnr, hera]
  have h64 : castU64 0 = 0 := by decide
  have h32 : castU32 0 = 0 := by decide
  rw [h64, h32]

/-- C9: the divisor `SECONDS_PER_DAY * modifier` in the nanos computation of
`as_instant` is never zero: the modifier is always exactly `1` or `-1`,
`SECONDS_PER_DAY` is `86400`, and their product is nonzero for every days
input. -/
theorem nanos_divisor_nonzero (d : ℚ) :
    (asInstantModifier d = 1 ∨ asInstantModifier d = -1) ∧
      SECONDS_PER_DAY = 86400 ∧ SECONDS_PER_DAY * asInstantModifier d ≠ 0 := by
  unfold asInstantModifier SECONDS_PER_DAY
  split
  · norm_num
  · norm_num

/-- C10: for every days input, the rounded seconds value is non-negative
before the `u64` cast, the nanos argument passed to `Instant::new` is always
in [0, 2^32), and when the residual rounds to a negative nanos value the
saturating float-to-integer cast clamps it to 0. -/
theorem as_instant_cast_safety (d : ℚ) :
    0 ≤ fround (secsFrac d) ∧ (as_instant ⟨d⟩).nanos < 2 ^ 32 ∧
      (fround (nanosVal d) < 0 → (as_instant ⟨d⟩).nanos = 0) := by
  refine ⟨fround_nonneg (secsFrac_nonneg d), ?_, fun h => ?_⟩
  · show castU32 (fround (nanosVal d)) < 2 ^ 32
    exact castU32_lt _
  · show castU32 (fround (nanosVal d)) = 0
    unfold castU32
    rw [if_pos h]

/-- C10 witness: at `days = 15020 + 999999999 * 1e-9` (the image under
`from_instant` of the Instant one nanosecond before a full second after the
epoch, per the unscaled nanosecond term), the residual rounds to a negative
nanos value and the cast clamps it to 0. -/
theorem as_instant_cast_safety_witness :
    (as_instant ⟨15020 + 999999999 / 1000000000⟩).nanos = 0 := by
  apply (as_instant_cast_safety (15020 + 999999999 / 1000000000)).2.2
  have hge : J1900_OFFSET ≤ (15020 + 999999999 / 1000000000 : ℚ) := by
    unfold J1900_OFFSET; norm_num
  have hmod : asInstantModifier (15020 + 999999999 / 1000000000) = 1 := by
    unfold asInstantModifier; rw [if_pos hge]
  have hsf : secsFrac (15020 + 999999999 / 1000000000) = 26999999973 / 312500 := by
    unfold secsFrac
    rw [hmod]
    unfold J1900_OFFSET SECONDS_PER_DAY
    norm_num
  have hfr : fround (secsFrac (15020 + 999999999 / 1000000000)) = 86400 := by
    rw [hsf]
    unfold fround
    rw [if_pos (by norm_num)]
    norm_num
  have hnv : nanosVal (15020 + 999999999 / 1000000000) = -1 := by
    unfold nanosVal
    rw [hfr, hsf, hmod]
    unfold SECONDS_PER_DAY
    norm_num
  rw [hnv]
  unfold fround
  rw [if_neg (by norm_num)]
  norm_num

/-- C1 (amended): for every Instant with era Present, seconds in [0, 10^8]
and nanos in [0, 5787], `as_instant (from_instant x)` reproduces `x` exactly
(same era, seconds and nanos). -/
theorem roundtrip_present_amended (s n : ℕ) (hs : s ≤ 10 ^ 8) (hn : n ≤ 5787) :
    as_instant (from_instant (Instant.new s n Era.Present)) = Instant.new s n Era.Present := by
  have hd : (from_instant (Instant.new s n Era.Present)).days
      = 15020 + (s : ℚ) / 86400 + (n : ℚ) / 1000000000 := by
    unfold from_instant fromInstantModifier Instant.new J1900_OFFSET SECONDS_PER_DAY
    norm_num
    ring
  have hge : J1900_OFFSET ≤ (from_instant (Instant.new s n Era.Present)).days := by
    rw [hd]
    unfold J1900_OFFSET
    have h1 : 0 ≤ (s : ℚ) / 86400 := by positivity
    have h2 : 0 ≤ (n : ℚ) / 1000000000 := by positivity
    linarith
  have hera : asInstantEra (from_instant (Instant.new s n Era.Present)).days = Era.Present := by
    unfold asInstantEra; rw [if_pos hge]
  have hmod : asInstantModifier (from_instant (Instant.new s n Era.Present)).days = 1 := by
    unfold asInstantModifier; rw [if_pos hge]
  have hsf : secsFrac (from_instant (Instant.new s n Era.Present)).days
      = (s : ℚ) + (n : ℚ) * 864 / 10 ^ 7 := by
    unfold secsFrac
    rw [hmod, hd]
    unfold J1900_OFFSET SECONDS_PER_DAY
    ring
  have hf0 : 0 ≤ (n : ℚ) * 864 / 10 ^ 7 := by positivity
  have hf1 : (n : ℚ) * 864 / 10 ^ 7 < 1 / 2 := by
    have hnq : (n : ℚ) ≤ 5787 := by exact_mod_cast hn
    rw [div_lt_iff₀ (by norm_num)]
    linarith
  have hfr : fround (secsFrac (from_instant (Instant.new s n Era.Present)).days) = (s : ℤ) := by
    rw [hsf]
    exact fround_natCast_add hf0 hf1
  have hnv : nanosVal (from_instant (Instant.new s n Era.Present)).days = (n : ℚ) := by
    unfold nanosVal
    rw [hfr, hsf, hmod]
    unfold SECONDS_PER_DAY
    push_cast
    ring
  have hnr : fround (nanosVal (from_instant (Instant.new s n Era.Present)).days) = (n : ℤ) := by
    rw [hnv]
    exact fround_natCast n
  unfold as_instant
  rw [hfr, hnr, hera, castU64_natCast (lt_of_le_of_lt hs (by norm_num)),
    castU32_natCast (lt_of_le_of_lt hn (by norm_num))]

/-- C1 witness: the amended round trip at the concrete Instant with era
Present, seconds 3 and nanos 5787. -/
theorem roundtrip_present_amended_witness :
    3 ≤ 10 ^ 8 ∧ 5787 ≤ 5787 ∧
      as_instant (from_instant (Instant.new 3 5787 Era.Present)) = Instant.new 3 5787 Era.Present :=
  ⟨by norm_num, le_rfl, roundtrip_present_amended 3 5787 (by norm_num) le_rfl⟩

/-- C1 counterexample: the Instant with era Present, seconds 0 and nanos
999999999 (inside the claimed ranges) does not survive the round trip: it
comes back as seconds 86400, nanos 0, because `from_instant` adds the
nanosecond term in units of days rather than seconds. -/
theorem roundtrip_present_cex :
    as_instant (from_instant (Instant.new 0 999999999 Era.Present))
      ≠ Instant.new 0 999999999 Era.Present := by
  have hd : (from_instant (Instant.new 0 999999999 Era.Present)).days
      = 15020 + 999999999 / 1000000000 := by
    unfold from_instant fromInstantModifier Instant.new J1900_OFFSET SECONDS_PER_DAY
    norm_num
  have hge : J1900_OFFSET ≤ (from_instant (Instant.new 0 999999999 Era.Present)).days := by
    rw [hd]; unfold J1900_OFFSET; norm_num
  have hmod : asInstantModifier (from_instant (Instant.new 0 999999999 Era.Present)).days = 1 := by
    unfold asInstantModifier; rw [if_pos hge]
  have hsf : secsFrac (from_instant (Instant.new 0 999999999 Era.Present)).days
      = 26999999973 / 312500 := by
    unfold secsFrac
    rw [hmod, hd]
    unfold J1900_OFFSET SECONDS_PER_DAY
    norm_num
  have hfr : fround (secsFrac (from_instant (Instant.new 0 999999999 Era.Present)).days)
      = 86400 := by
    rw [hsf]
    unfold fround
    rw [if_pos (by norm_num)]
    norm_num
  intro heq
  have hL : (as_instant (from_instant (Instant.new 0 999999999 Era.Present))).secs = 86400 := by
    show castU64 (fround (secsFrac (from_instant (Instant.new 0 999999999 Era.Present)).days))
      = 86400
    rw [hfr]
    decide
  rw [heq] at hL
  exact absurd hL (by decide)

/-- C2 (amended): for every Instant with era Past, seconds in [1, 10^8] and
nanos in [0, 5787], `as_instant (from_instant x)` reproduces `x` exactly
(same era, seconds and nanos). -/
theorem roundtrip_past_amended (s n : ℕ) (hs1 : 1 ≤ s) (hs : s ≤ 10 ^ 8) (hn : n ≤ 5787) :
    as_instant (from_instant (Instant.new s n Era.Past)) = Instant.new s n Era.Past := by
  have hd : (from_instant (Instant.new s n Era.Past)).days
      = 15020 - (s : ℚ) / 86400 + (n : ℚ) / 1000000000 := by
    unfold from_instant fromInstantModifier Instant.new J1900_OFFSET SECONDS_PER_DAY
    rw [if_neg (show ¬ (Era.Past = Era.Present) by decide)]
    ring
  have hnq : (n : ℚ) ≤ 5787 := by exact_mod_cast hn
  have hs1q : (1 : ℚ) ≤ (s : ℚ) := by exact_mod_cast hs1
  have hlt : ¬ J1900_OFFSET ≤ (from_instant (Instant.new s n Era.Past)).days := by
    rw [hd]
    unfold J1900_OFFSET
    have h1 : (n : ℚ) / 1000000000 < 1 / 86400 := by
      rw [div_lt_div_iff₀ (by norm_num) (by norm_num)]
      linarith
    have h2 : (1 : ℚ) / 86400 ≤ (s : ℚ) / 86400 := by gcongr
    exact not_le.mpr (by linarith)
  have hera : asInstantEra (from_instant (Instant.new s n Era.Past)).days = Era.Past := by
    unfold asInstantEra; rw [if_neg hlt]
  have hmod : asInstantModifier (from_instant (Instant.new s n Era.Past)).days = -1 := by
    unfold asInstantModifier; rw [if_neg hlt]
  have hsf : secsFrac (from_instant (Instant.new s n Era.Past)).days
      = (s : ℚ) - (n : ℚ) * 864 / 10 ^ 7 := by
    unfold secsFrac
    rw [hmod, hd]
    unfold J1900_OFFSET SECONDS_PER_DAY
    ring
  have hf0 : 0 ≤ (n : ℚ) * 864 / 10 ^ 7 := by positivity
  have hf1 : (n : ℚ) * 864 / 10 ^ 7 < 1 / 2 := by
    rw [div_lt_iff₀ (by norm_num)]
    linarith
  have hfr : fround (secsFrac (from_instant (Instant.new s n Era.Past)).days) = (s : ℤ) := by
    rw [hsf]
    exact fround_natCast_sub hs1 hf0 hf1
  have hnv : nanosVal (from_instant (Instant.new s n Era.Past)).days = (n : ℚ) := by
    unfold nanosVal
    rw [hfr, hsf, hmod]
    unfold SECONDS_PER_DAY
    push_cast
    ring
  have hnr : fround (nanosVal (from_instant (Instant.new s n Era.Past)).days) = (n : ℤ) := by
    rw [hnv]
    exact fround_natCast n
  unfold as_instant
  rw [hfr, hnr, hera, castU64_natCast (lt_of_le_of_lt hs (by norm_num)),
    castU32_natCast (lt_of_le_of_lt hn (by norm_num))]

/-- C2 witness: the amended round trip at the concrete Instant with era Past,
seconds 5 and nanos 5787. -/
theorem roundtrip_past_amended_witness :
    1 ≤ 5 ∧ 5 ≤ 10 ^ 8 ∧ 5787 ≤ 5787 ∧
      as_instant (from_instant (Instant.new 5 5787 Era.Past)) = Instant.new 5 5787 Era.Past :=
  ⟨by norm_num, by norm_num, le_rfl,
    roundtrip_past_amended 5 5787 (by norm_num) (by norm_num) le_rfl⟩

/-- C2 counterexample: the Instant with era Past, seconds 1 and nanos 5788
(inside the claimed ranges) does not survive the round trip: it comes back as
seconds 0, nanos 0. -/
theorem roundtrip_past_cex :
    as_instant (from_instant (Instant.new 1 5788 Era.Past)) ≠ Instant.new 1 5788 Era.Past := by
  have hd : (from_instant (Instant.new 1 5788 Era.Past)).days
      = 15020 - 1 / 86400 + 5788 / 1000000000 := by
    unfold from_instant fromInstantModifier Instant.new J1900_OFFSET SECONDS_PER_DAY
    rw [if_neg (show ¬ (Era.Past = Era.Present) by decide)]
    push_cast
    ring
  have hlt : ¬ J1900_OFFSET ≤ (from_instant (Instant.new 1 5788 Era.Past)).days := by
    rw [hd]; unfold J1900_OFFSET; norm_num
  have hmod : asInstantModifier (from_instant (Instant.new 1 5788 Era.Past)).days = -1 := by
    unfold asInstantModifier; rw [if_neg hlt]
  have hsf : secsFrac (from_instant (Instant.new 1 5788 Era.Past)).days = 39056 / 78125 := by
    unfold secsFrac
    rw [hmod, hd]
    unfold J1900_OFFSET SECONDS_PER_DAY
    norm_num
  have hfr : fround (secsFrac (from_instant (Instant.new 1 5788 Era.Past)).days) = 0 := by
    rw [hsf]
    unfold fround
    rw [if_pos (by norm_num)]
    norm_num
  intro heq
  have hL : (as_instant (from_instant (Instant.new 1 5788 Era.Past))).secs = 0 := by
    show castU64 (fround (secsFrac (from_instant (Instant.new 1 5788 Era.Past)).days)) = 0
    rw [hfr]
    decide
  rw [heq] at hL
  exact absurd hL (by decide)

/-- C7 counterexample: the Instant with era Present, seconds 0, nanos
999999999 is earlier than the one with seconds 1, nanos 0, yet its
`from_instant` image has a strictly larger `days` value, because the
nanosecond term is added in units of days. -/
theorem monotonicity_cex :
    earlier (Instant.new 0 999999999 Era.Present) (Instant.new 1 0 Era.Present) ∧
      ¬ (from_instant (Instant.new 0 999999999 Era.Present)).days
          ≤ (from_instant (Instant.new 1 0 Era.Present)).days := by
  constructor
  · left
    refine ⟨rfl, ?_⟩
    unfold signedOffset Instant.new
    norm_num
  · unfold from_instant fromInstantModifier Instant.new J1900_OFFSET SECONDS_PER_DAY
    norm_num

/-- C7 (amended): for every two Instants x earlier than y that have equal
nanos fields, `from_instant x` has a `days` value at most that of
`from_instant y`. -/
theorem monotonicity_amended (x y : Instant) (hnn : x.nanos = y.nanos) (hxy : earlier x y) :
    (from_instant x).days ≤ (from_instant y).days := by
  obtain ⟨sx, nx, ex⟩ := x
  obtain ⟨sy, ny, ey⟩ := y
  have hnn2 : nx = ny := hnn
  subst hnn2
  unfold earlier signedOffset at hxy
  unfold from_instant fromInstantModifier J1900_OFFSET SECONDS_PER_DAY
  have hsx : (0 : ℚ) ≤ (sx : ℚ) := Nat.cast_nonneg sx
  have hsy : (0 : ℚ) ≤ (sy : ℚ) := Nat.cast_nonneg sy
  have hEP : ¬ (Era.Past = Era.Present) := by decide
  have hPE : ¬ (Era.Present = Era.Past) := by decide
  have hPP : Era.Present = Era.Present := rfl
  cases ex <;> cases ey
  · rcases hxy with ⟨-, h⟩ | ⟨-, h⟩
    · simp only [if_neg hEP] at h ⊢
      linarith
    · exact absurd h hEP
  · simp only [if_neg hEP, if_pos hPP, eq_self_iff_true, if_true]
    linarith
  · rcases hxy with ⟨h, -⟩ | ⟨h, -⟩ <;> exact absurd h hPE
  · rcases hxy with ⟨-, h⟩ | ⟨h, -⟩
    · simp only [if_pos hPP, eq_self_iff_true, if_true] at h ⊢
      linarith
    · exact absurd h hPE

/-- C7 witness: the amended monotonicity at the concrete pair of Instants
with equal nanos, the first in era Past (seconds 2) and the second in era
Present (seconds 1). -/
theorem monotonicity_amended_witness :
    (Instant.new 2 7 Era.Past).nanos = (Instant.new 1 7 Era.Present).nanos ∧
      earlier (Instant.new 2 7 Era.Past) (Instant.new 1 7 Era.Present) ∧
      (from_instant (Instant.new 2 7 Era.Past)).days
        ≤ (from_instant (Instant.new 1 7 Era.Present)).days :=
  ⟨rfl, Or.inr ⟨rfl, rfl⟩, monotonicity_amended _ _ rfl (Or.inr ⟨rfl, rfl⟩)⟩
